import Mathlib

/-!
Shallow embedding of `src/maasserver/rpc/regionservice.py` (MAAS region RPC
service), covering the in-memory connection registry of `RegionService`, the
waiter bookkeeping of `_getConnectionFor` / `_getConnectionFromIdentifiers`,
the registration sequence of `RegionServer._register`, and the advertising
lifecycle of `RegionAdvertisingService` / `RegionAdvertising`.

Python dictionaries are modelled as insertion-ordered association lists;
Python sets as duplicate-free lists (`list(s)` order is arbitrary but fixed);
`collections.defaultdict` reads are modelled by `dget`, which materialises the
default entry exactly as `defaultdict.__getitem__` does.  Each call to
`random.choice(xs)` is modelled by an extra natural-number parameter `k`,
the drawn index, reduced modulo `len(xs)`; uniformity statements quantify
over that index.
-/

set_option autoImplicit false

namespace Maas

variable {ι : Type} [DecidableEq ι] {α : Type}

/-- Lookup in an association list (Python `d[k]`), with a default for the
missing-key case. -/
def lookupD : List (ι × α) → ι → α → α
  | [], _, dflt => dflt
  | e :: es, k, dflt => if e.1 = k then e.2 else lookupD es k dflt

/-- Lookup returning an `Option` (used to observe whether a row exists). -/
def lookup? : List (ι × α) → ι → Option α
  | [], _ => none
  | e :: es, k => if e.1 = k then some e.2 else lookup? es k

/-- Assignment `d[k] = v`: overwrite in place if the key exists, else append
(Python dicts preserve insertion order). -/
def dictSet : List (ι × α) → ι → α → List (ι × α)
  | [], k, v => [(k, v)]
  | e :: es, k, v => if e.1 = k then (k, v) :: es else e :: dictSet es k v

/-- Key-membership test for an association list. -/
def hasKey : List (ι × α) → ι → Bool
  | [], _ => false
  | e :: es, k => decide (e.1 = k) || hasKey es k

/-- Read from a `collections.defaultdict`: return the value and the
(possibly extended) dictionary — a missing key is inserted with the default,
exactly as `defaultdict.__getitem__` does. -/
def dget (d : List (ι × α)) (k : ι) (dflt : α) : α × List (ι × α) :=
  if hasKey d k then (lookupD d k dflt, d) else (dflt, d ++ [(k, dflt)])

/-- Python `set.add` on a set-as-list: append only when absent. -/
def setAdd (l : List ℕ) (x : ℕ) : List ℕ :=
  if x ∈ l then l else l ++ [x]

/-- Python `set.discard` on a set-as-list: remove the element, no-op when
absent. -/
def setDiscard (l : List ℕ) (x : ℕ) : List ℕ :=
  l.filter (fun y => y ≠ x)

/-! Basic association-list lemmas. -/

theorem lookupD_of_not_hasKey {d : List (ι × α)} {k : ι} {dflt : α}
    (h : hasKey d k = false) : lookupD d k dflt = dflt := by
  induction d with
  | nil => rfl
  | cons e es ih =>
    simp only [hasKey, Bool.or_eq_false_iff, decide_eq_false_iff_not] at h
    simp [lookupD, h.1, ih h.2]

@[simp] theorem dget_fst (d : List (ι × α)) (k : ι) (dflt : α) :
    (dget d k dflt).1 = lookupD d k dflt := by
  unfold dget
  by_cases h : hasKey d k
  · simp [h]
  · simp only [Bool.not_eq_true] at h
    simp [h, lookupD_of_not_hasKey h]

theorem lookupD_append (d₁ d₂ : List (ι × α)) (k : ι) (dflt : α) :
    lookupD (d₁ ++ d₂) k dflt =
      if hasKey d₁ k then lookupD d₁ k dflt else lookupD d₂ k dflt := by
  induction d₁ with
  | nil => simp [hasKey, lookupD]
  | cons e es ih =>
    by_cases h : e.1 = k
    · simp [lookupD, hasKey, h]
    · simp [lookupD, hasKey, h, ih]

theorem lookupD_dget_snd (d : List (ι × α)) (k k' : ι) (dflt dflt' : α) :
    lookupD (dget d k dflt).2 k' dflt' =
      if k' = k ∧ hasKey d k = false then dflt else lookupD d k' dflt' := by
  unfold dget
  by_cases h : hasKey d k
  · simp [h]
  · simp only [Bool.not_eq_true] at h
    simp only [h, Bool.false_eq_true, if_false, and_true]
    rw [lookupD_append]
    by_cases h' : hasKey d k'
    · have hne : k' ≠ k := by
        intro he
        subst he
        simp [h'] at h
      simp [h', hne]
    · simp only [Bool.not_eq_true] at h'
      simp only [h', Bool.false_eq_true, if_false]
      by_cases he : k' = k
      · subst he
        simp [lookupD]
      · simp [lookupD, Ne.symm he, lookupD_of_not_hasKey h', he]

@[simp] theorem lookupD_dictSet_self (d : List (ι × α)) (k : ι) (v dflt : α) :
    lookupD (dictSet d k v) k dflt = v := by
  induction d with
  | nil => simp [dictSet, lookupD]
  | cons e es ih =>
    by_cases h : e.1 = k
    · simp [dictSet, h, lookupD]
    · simp [dictSet, h, lookupD, ih]

theorem lookupD_dictSet_ne (d : List (ι × α)) {k k' : ι} (v dflt : α)
    (h : k' ≠ k) : lookupD (dictSet d k v) k' dflt = lookupD d k' dflt := by
  induction d with
  | nil => simp [dictSet, lookupD, Ne.symm h]
  | cons e es ih =>
    by_cases he : e.1 = k
    · simp [dictSet, he, lookupD, Ne.symm h, he ▸ Ne.symm h]
    · simp only [dictSet, he, if_false, lookupD]
      by_cases he' : e.1 = k'
      · simp [he']
      · simp [he', ih]

@[simp] theorem hasKey_dictSet_self (d : List (ι × α)) (k : ι) (v : α) :
    hasKey (dictSet d k v) k = true := by
  induction d with
  | nil => simp [dictSet, hasKey]
  | cons e es ih =>
    by_cases h : e.1 = k
    · simp [dictSet, h, hasKey]
    · simp [dictSet, h, hasKey, ih]

theorem dictSet_dictSet (d : List (ι × α)) (k : ι) (v v' : α) :
    dictSet (dictSet d k v) k v' = dictSet d k v' := by
  induction d with
  | nil => simp [dictSet]
  | cons e es ih =>
    by_cases h : e.1 = k
    · simp [dictSet, h]
    · simp [dictSet, h, ih]

theorem dget_of_hasKey {d : List (ι × α)} {k : ι} (dflt : α)
    (h : hasKey d k = true) : dget d k dflt = (lookupD d k dflt, d) := by
  simp [dget, h]

theorem setDiscard_setDiscard (l : List ℕ) (x : ℕ) :
    setDiscard (setDiscard l x) x = setDiscard l x := by
  simp [setDiscard, List.filter_filter]

@[simp] theorem not_mem_setDiscard (l : List ℕ) (x : ℕ) :
    x ∉ setDiscard l x := by
  simp [setDiscard]

/-! ## Connection registry (`RegionService`)

State of `RegionService.connections` (cluster ident → set of connections) and
`RegionService.waiters` (cluster ident → set of pending deferreds), both
`defaultdict(set)`.  Connections and waiters are identified by numbers.  The
identity type is a parameter because `RegionServer._register` runs with
`self.ident = None` until `initResponder` assigns it, which we model with
`Option ℕ`. -/

/-- Connection identifier (one `RegionServer` protocol instance). -/
abbrev Conn := ℕ

/-- Waiter identifier (one deferred created by `_getConnectionFor` or
`_getConnectionFromIdentifiers`). -/
abbrev WaiterId := ℕ

/-- The mutable registry state of a `RegionService`. -/
structure RegionServiceState (ι : Type) where
  connections : List (ι × List Conn)
  waiters : List (ι × List WaiterId)
deriving DecidableEq

/-- Notifications fired through `self.events` (an
`EventGroup("connected", "disconnected")`). -/
inductive REvent (ι : Type)
  | connected (ident : ι)
  | disconnected (ident : ι)
deriving DecidableEq

/-- The connection set currently registered for `ident`
(`self.connections[ident]`, read without the defaultdict side effect). -/
def connsFor (st : RegionServiceState ι) (ident : ι) : List Conn :=
  lookupD st.connections ident []

/-- The waiter set currently pending for `ident` (`self.waiters[ident]`). -/
def waitersFor (st : RegionServiceState ι) (ident : ι) : List WaiterId :=
  lookupD st.waiters ident []

/-- Result of `RegionService._getConnectionFor`: either an immediately
succeeding deferred carrying a connection, or a pending timed waiter. -/
inductive GetOutcome
  | immediate (c : Conn)
  | waiting (w : WaiterId)
deriving DecidableEq

/-- `RegionService._getConnectionFor(ident, timeout)`.  `choice` is the index
drawn by `random.choice` (used modulo the list length); `w` is the fresh
deferred created by `deferWithTimeout` in the empty case. -/
def getConnectionFor (st : RegionServiceState ι) (ident : ι) (choice : ℕ)
    (w : WaiterId) : GetOutcome × RegionServiceState ι :=
  let p := dget st.connections ident []
  if p.1.length = 0 then
    let q := dget st.waiters ident []
    (GetOutcome.waiting w, ⟨p.2, dictSet q.2 ident (setAdd q.1 w)⟩)
  else
    (GetOutcome.immediate (p.1.getD (choice % p.1.length) 0), ⟨p.2, st.waiters⟩)

/-- `RegionService._addConnectionFor(ident, connection)`: add the connection
to `ident`'s set, fire the callback of every pending waiter for `ident` with
this same connection (each waiter's `addBoth` then discards it from the
waiter set, emptying it), and fire the `connected` event.  Returns the new
state, the list of waiter resolutions `(waiter, connection)`, and the fired
events. -/
def addConnectionFor (st : RegionServiceState ι) (ident : ι) (c : Conn) :
    RegionServiceState ι × List (WaiterId × Conn) × List (REvent ι) :=
  let p := dget st.connections ident []
  let q := dget st.waiters ident []
  (⟨dictSet p.2 ident (setAdd p.1 c), dictSet q.2 ident []⟩,
    q.1.map (fun w => (w, c)), [REvent.connected ident])

/-- `RegionService._removeConnectionFor(ident, connection)`: discard the
connection from `ident`'s set and fire the `disconnected` event
(unconditionally). -/
def removeConnectionFor (st : RegionServiceState ι) (ident : ι) (c : Conn) :
    RegionServiceState ι × List (REvent ι) :=
  let p := dget st.connections ident []
  (⟨dictSet p.2 ident (setDiscard p.1 c), st.waiters⟩,
    [REvent.disconnected ident])

/-- Result seen by a caller of `RegionService.getClientFor`. -/
inductive ClientOutcome
  | client (c : Conn) (immediate : Bool)
  | noConnectionsAvailable
deriving DecidableEq

/-- `RegionService.getClientFor(system_id, timeout)` together with the
subsequent fate of the waiter: `arrival = some c` means a register for
`ident` ran (its `_addConnectionFor` resolving the waiter with `c`) before
the timeout; `arrival = none` means the timeout elapsed first, cancelling
the deferred, whose `CancelledError` `getClientFor` turns into
`NoConnectionsAvailable`. -/
def getClientFor (st : RegionServiceState ι) (ident : ι) (choice : ℕ)
    (w : WaiterId) (arrival : Option Conn) :
    ClientOutcome × RegionServiceState ι :=
  match getConnectionFor st ident choice w with
  | (GetOutcome.immediate c, st1) => (ClientOutcome.client c true, st1)
  | (GetOutcome.waiting w0, st1) =>
    match arrival with
    | some c => (ClientOutcome.client c false, (addConnectionFor st1 ident c).1)
    | none =>
      let q := dget st1.waiters ident []
      (ClientOutcome.noConnectionsAvailable,
        ⟨st1.connections, dictSet q.2 ident (setDiscard q.1 w0)⟩)

/-- Result of `RegionService.getRandomClient`. -/
inductive RandomClientResult
  | ok (c : Conn)
  | noConnectionsAvailable
  | assertionFailed
deriving DecidableEq

/-- `RegionService.getRandomClient()`: `random.choice` over
`list(self.connections.values())` — picking one identity's whole connection
set — then `random.choice` over that set.  `i` and `j` are the two drawn
indices (each used modulo the respective length); the inner
`assert len(connection) > 0` is modelled by `assertionFailed`. -/
def getRandomClient (st : RegionServiceState ι) (i j : ℕ) :
    RandomClientResult :=
  let connections := st.connections.map (fun e => e.2)
  if connections.length = 0 then RandomClientResult.noConnectionsAvailable
  else
    let connection := connections.getD (i % connections.length) []
    if connection.length = 0 then RandomClientResult.assertionFailed
    else RandomClientResult.ok (connection.getD (j % connection.length) 0)

/-! Helper lemmas about set-as-list operations and random indexing. -/

@[simp] theorem mem_setAdd_self (l : List ℕ) (x : ℕ) : x ∈ setAdd l x := by
  unfold setAdd
  split
  · assumption
  · simp

theorem getD_mod_mem {l : List ℕ} (h : l ≠ []) (k : ℕ) :
    l.getD (k % l.length) 0 ∈ l := by
  have hlen : 0 < l.length := List.length_pos.mpr h
  rw [List.getD_eq_getElem l 0 (Nat.mod_lt k hlen)]
  exact List.getElem_mem _

/-- With a duplicate-free list, each element is produced by exactly one index
in `[0, length)`: `random.choice` over the list is a uniform draw over its
elements. -/
theorem count_getD_eq_one {l : List ℕ} (hnd : l.Nodup) {c : ℕ} (hc : c ∈ l) :
    ((Finset.range l.length).filter (fun k => l.getD k 0 = c)).card = 1 := by
  obtain ⟨k, hk, hget⟩ := List.mem_iff_getElem.mp hc
  have hset : (Finset.range l.length).filter (fun k => l.getD k 0 = c) = {k} := by
    ext j
    simp only [Finset.mem_filter, Finset.mem_range, Finset.mem_singleton]
    constructor
    · rintro ⟨hj, hgd⟩
      rw [List.getD_eq_getElem l 0 hj, ← hget] at hgd
      exact (hnd.getElem_inj_iff).mp hgd
    · rintro rfl
      exact ⟨hk, by rw [List.getD_eq_getElem l 0 hk, hget]⟩
  rw [hset, Finset.card_singleton]

/-! ## Registry state lemmas -/

theorem connsFor_addConnectionFor (st : RegionServiceState ι) (ident k : ι)
    (c : Conn) :
    connsFor (addConnectionFor st ident c).1 k =
      if k = ident then setAdd (connsFor st ident) c else connsFor st k := by
  unfold connsFor addConnectionFor
  by_cases h : k = ident
  · subst h
    simp [lookupD_dictSet_self]
  · simp only [h, if_false]
    rw [lookupD_dictSet_ne _ _ _ h, lookupD_dget_snd]
    simp [h]

theorem connsFor_removeConnectionFor (st : RegionServiceState ι) (ident k : ι)
    (c : Conn) :
    connsFor (removeConnectionFor st ident c).1 k =
      if k = ident then setDiscard (connsFor st ident) c else connsFor st k := by
  unfold connsFor removeConnectionFor
  by_cases h : k = ident
  · subst h
    simp [lookupD_dictSet_self]
  · simp only [h, if_false]
    rw [lookupD_dictSet_ne _ _ _ h, lookupD_dget_snd]
    simp [h]

theorem waiters_removeConnectionFor (st : RegionServiceState ι) (ident : ι)
    (c : Conn) : (removeConnectionFor st ident c).1.waiters = st.waiters :=
  rfl

/-- Applying `_removeConnectionFor` a second time does not change the
registry state further. -/
theorem removeConnectionFor_idem (st : RegionServiceState ι) (ident : ι)
    (c : Conn) :
    (removeConnectionFor (removeConnectionFor st ident c).1 ident c).1 =
      (removeConnectionFor st ident c).1 := by
  simp only [removeConnectionFor]
  rw [dget_of_hasKey _ (hasKey_dictSet_self _ _ _)]
  simp [dictSet_dictSet, setDiscard_setDiscard, lookupD_dictSet_self]

/-! ## Claim C1: `getClientFor` / `_getConnectionFor` -/

/-- C1: for every identity and timeout, `getClientFor` returns immediately
one of the identity's live connections chosen uniformly at random when at
least one exists (each connection is selected by exactly one choice index in
`[0, count)`); otherwise it registers a timed waiter, and if no register for
that identity arrives before the timeout elapses it fails with
`NoConnectionsAvailable` and the waiter is discarded from the waiter set. -/
theorem getClientFor_spec (st : RegionServiceState ℕ) (ident choice : ℕ)
    (w : WaiterId) (arrival : Option Conn) :
    (connsFor st ident ≠ [] →
      (getClientFor st ident choice w arrival).1 =
          ClientOutcome.client
            ((connsFor st ident).getD (choice % (connsFor st ident).length) 0)
            true
        ∧ (connsFor st ident).getD (choice % (connsFor st ident).length) 0 ∈
            connsFor st ident
        ∧ ((connsFor st ident).Nodup → ∀ c ∈ connsFor st ident,
            ((Finset.range (connsFor st ident).length).filter
              (fun k => (connsFor st ident).getD k 0 = c)).card = 1))
    ∧ (connsFor st ident = [] → arrival = none →
        (getClientFor st ident choice w arrival).1 =
            ClientOutcome.noConnectionsAvailable
          ∧ w ∉ waitersFor (getClientFor st ident choice w arrival).2 ident) := by
  constructor
  · intro hne
    have hL : ¬((lookupD st.connections ident []).length = 0) :=
      fun h => hne (List.length_eq_zero.mp h)
    have hg : getClientFor st ident choice w arrival =
        (ClientOutcome.client
          ((connsFor st ident).getD (choice % (connsFor st ident).length) 0)
          true,
         ⟨(dget st.connections ident []).2, st.waiters⟩) := by
      unfold getClientFor getConnectionFor
      simp only [connsFor, dget_fst]
      rw [if_neg hL]
    exact ⟨by rw [hg], getD_mod_mem hne choice,
      fun hnd c hcmem => count_getD_eq_one hnd hcmem⟩
  · intro hemp harr
    subst harr
    unfold connsFor at hemp
    have hL : (dget st.connections ident []).1.length = 0 := by
      rw [dget_fst, hemp]
      rfl
    have hg1 : getConnectionFor st ident choice w =
        (GetOutcome.waiting w,
          ⟨(dget st.connections ident []).2,
            dictSet (dget st.waiters ident []).2 ident
              (setAdd (dget st.waiters ident []).1 w)⟩) := by
      simp only [getConnectionFor]
      rw [if_pos hL]
    have hres : ∀ st1 : RegionServiceState ℕ,
        getConnectionFor st ident choice w = (GetOutcome.waiting w, st1) →
        getClientFor st ident choice w none =
          (ClientOutcome.noConnectionsAvailable,
            ⟨st1.connections, dictSet (dget st1.waiters ident []).2 ident
              (setDiscard (dget st1.waiters ident []).1 w)⟩) := by
      intro st1 h1
      unfold getClientFor
      rw [h1]
    rw [hres _ hg1]
    refine ⟨rfl, ?_⟩
    unfold waitersFor
    rw [lookupD_dictSet_self]
    exact not_mem_setDiscard _ _

/-- State with two connections 5, 6 registered for identity 1. -/
def cOneStA : RegionServiceState ℕ := ⟨[(1, [5, 6])], []⟩

/-- State with no connections registered at all. -/
def cOneStB : RegionServiceState ℕ := ⟨[], []⟩

/-- C1 witness: with connections `[5, 6]` for identity 1, choice index 0
returns connection 5 immediately and 5 is drawn by exactly one index; with
no connections and no register before the timeout, the caller gets
`NoConnectionsAvailable` and waiter 9 is not left in the waiter set. -/
theorem getClientFor_spec_witness :
    (getClientFor cOneStA 1 0 9 none).1 = ClientOutcome.client 5 true
    ∧ ((Finset.range (connsFor cOneStA 1).length).filter
        (fun k => (connsFor cOneStA 1).getD k 0 = 5)).card = 1
    ∧ (getClientFor cOneStB 1 0 9 none).1 =
        ClientOutcome.noConnectionsAvailable
    ∧ 9 ∉ waitersFor (getClientFor cOneStB 1 0 9 none).2 1 := by
  have hA := (getClientFor_spec cOneStA 1 0 9 none).1 (by decide)
  have hB := (getClientFor_spec cOneStB 1 0 9 none).2 (by decide) rfl
  exact ⟨hA.1, hA.2.2 (by decide) 5 (by decide), hB.1, hB.2⟩

/-! ## Claim C2: `register` / `_addConnectionFor` and pending waiters -/

/-- State with no connections and two pending waiters 4, 6 for identity 1. -/
def cTwoSt : RegionServiceState ℕ := ⟨[], [(1, [4, 6])]⟩

/-- C2 counterexample: with two waiters 4 and 6 pending for identity 1,
`_addConnectionFor(1, 5)` fires the callback of BOTH waiters with the same
connection 5 — two resolutions, not one — refuting the claim that a single
waiter is resolved and that not all waiters for the identity resolve to the
same register call. -/
theorem addConnectionFor_resolves_all_cex :
    (addConnectionFor cTwoSt 1 5).2.1 = [(4, 5), (6, 5)]
    ∧ ¬((addConnectionFor cTwoSt 1 5).2.1.length = 1) := by decide

/-- C2 amended: when `register(identity, session)` runs while waiters for
that identity are pending, `_addConnectionFor` resolves EVERY pending waiter
with the new session (all of them receive this same session), empties the
identity's waiter set, fires a `connected` notification, and adds the
session to the identity's connection set. -/
theorem addConnectionFor_amended (st : RegionServiceState ℕ) (ident : ℕ)
    (c : Conn) :
    (addConnectionFor st ident c).2.1 =
        (waitersFor st ident).map (fun w => (w, c))
    ∧ waitersFor (addConnectionFor st ident c).1 ident = []
    ∧ (addConnectionFor st ident c).2.2 = [REvent.connected ident]
    ∧ c ∈ connsFor (addConnectionFor st ident c).1 ident := by
  refine ⟨?_, ?_, rfl, ?_⟩
  · show (dget st.waiters ident []).1.map (fun w => (w, c)) = _
    rw [dget_fst]
    rfl
  · show lookupD (dictSet (dget st.waiters ident []).2 ident []) ident [] = []
    rw [lookupD_dictSet_self]
  · rw [connsFor_addConnectionFor]
    simp

/-! ## Claim C4: `unregister` / `_removeConnectionFor` idempotence -/

/-- State with connection 5 registered for identity 1. -/
def cFourSt : RegionServiceState ℕ := ⟨[(1, [5])], []⟩

/-- C4 counterexample: calling `_removeConnectionFor(1, 5)` twice fires TWO
`disconnected` notifications where a single call fires one — the observable
effect on fired notifications differs, refuting idempotence with respect to
notifications. -/
theorem removeConnectionFor_double_event_cex :
    ((removeConnectionFor cFourSt 1 5).2 ++
        (removeConnectionFor (removeConnectionFor cFourSt 1 5).1 1 5).2) =
      [REvent.disconnected 1, REvent.disconnected 1]
    ∧ ¬(((removeConnectionFor cFourSt 1 5).2 ++
        (removeConnectionFor (removeConnectionFor cFourSt 1 5).1 1 5).2) =
      (removeConnectionFor cFourSt 1 5).2) := by decide

/-- C4 amended: `_removeConnectionFor` is idempotent on the registry's
connection sets — a second call for the same (identity, connection) pair
leaves the state exactly as after the first, and a call never fails when the
connection is already absent — but a `disconnected` notification is fired on
every call, including the redundant second one. -/
theorem removeConnectionFor_amended (st : RegionServiceState ℕ) (ident : ℕ)
    (c : Conn) :
    (removeConnectionFor (removeConnectionFor st ident c).1 ident c).1 =
        (removeConnectionFor st ident c).1
    ∧ (removeConnectionFor st ident c).2 = [REvent.disconnected ident]
    ∧ (removeConnectionFor (removeConnectionFor st ident c).1 ident c).2 =
        [REvent.disconnected ident]
    ∧ c ∉ connsFor (removeConnectionFor st ident c).1 ident := by
  refine ⟨removeConnectionFor_idem st ident c, rfl, rfl, ?_⟩
  rw [connsFor_removeConnectionFor]
  simp

/-! ## Claim C3: `getRandom` / `getRandomClient` -/

/-- State with one connection (10) for identity 1 and two connections
(20, 30) for identity 2: three sessions in the union. -/
def cThreeSt : RegionServiceState ℕ := ⟨[(1, [10]), (2, [20, 30])], []⟩

/-- C3 counterexample: `getRandomClient` first draws one of the 2 identity
sets uniformly (index `i` mod 2) and then one member of that set uniformly
(index `j`), so taking `j` over `[0, 2)` — 2 being a common multiple of both
set sizes — makes all 4 index pairs equiprobable.  Session 10 is produced by
2 of the 4 pairs while session 20 is produced by 1, i.e. probability 1/2
versus 1/4 — not the uniform 1/3 over the 3-session union the claim states.
-/
theorem getRandomClient_not_uniform_cex :
    ((Finset.range 2 ×ˢ Finset.range 2).filter
        (fun p => getRandomClient cThreeSt p.1 p.2 =
          RandomClientResult.ok 10)).card = 2
    ∧ ((Finset.range 2 ×ˢ Finset.range 2).filter
        (fun p => getRandomClient cThreeSt p.1 p.2 =
          RandomClientResult.ok 20)).card = 1
    ∧ (2 : ℕ) ≠ 1 := by decide

/-- C3 amended: `getRandomClient` picks a registered identity uniformly at
random and then one of that identity's sessions uniformly at random (so
sessions are NOT uniform across the union when identities have different
numbers of sessions), and it fails with `NoConnectionsAvailable` exactly
when the identity map is empty. -/
theorem getRandomClient_amended (st : RegionServiceState ℕ) (i j : ℕ) :
    (getRandomClient st i j = RandomClientResult.noConnectionsAvailable ↔
      st.connections = [])
    ∧ (∀ a, a < st.connections.length →
        ∀ l, (st.connections.map (fun e => e.2)).getD a [] = l → l ≠ [] →
          l.Nodup →
          (∀ k, k < l.length →
            getRandomClient st a k = RandomClientResult.ok (l.getD k 0))
          ∧ ∀ c ∈ l, ((Finset.range l.length).filter
              (fun k => l.getD k 0 = c)).card = 1) := by
  constructor
  · constructor
    · intro h
      by_cases hz : (st.connections.map (fun e => e.2)).length = 0
      · rw [List.length_map] at hz
        exact List.length_eq_zero.mp hz
      · exfalso
        simp only [getRandomClient] at h
        rw [if_neg hz] at h
        by_cases hz2 : ((st.connections.map (fun e => e.2)).getD
            (i % (st.connections.map (fun e => e.2)).length) []).length = 0
        · rw [if_pos hz2] at h
          exact RandomClientResult.noConfusion h
        · rw [if_neg hz2] at h
          exact RandomClientResult.noConfusion h
    · intro h
      simp [getRandomClient, h]
  · intro a ha l hl hlne hnd
    have hlen0 : ¬(st.connections.map (fun e => e.2)).length = 0 := by
      rw [List.length_map]
      omega
    have hmod : a % (st.connections.map (fun e => e.2)).length = a := by
      rw [List.length_map]
      exact Nat.mod_eq_of_lt ha
    constructor
    · intro k hk
      simp only [getRandomClient]
      rw [if_neg hlen0, hmod, hl,
        if_neg (fun h => hlne (List.length_eq_zero.mp h)),
        Nat.mod_eq_of_lt hk]
    · intro c hcmem
      exact count_getD_eq_one hnd hcmem

/-- C3 witness: on the concrete two-identity state, the error/empty
equivalence holds, identity slot 1 with inner index 0 yields session 20, and
each session of that identity is drawn by exactly one inner index. -/
theorem getRandomClient_amended_witness :
    (getRandomClient cThreeSt 0 0 = RandomClientResult.noConnectionsAvailable ↔
      cThreeSt.connections = [])
    ∧ getRandomClient cThreeSt 1 0 = RandomClientResult.ok 20
    ∧ ((Finset.range 2).filter
        (fun k => ([20, 30] : List ℕ).getD k 0 = 20)).card = 1 := by
  have h := getRandomClient_amended cThreeSt 0 0
  have h2 := (getRandomClient_amended cThreeSt 1 0).2 1 (by decide) [20, 30]
    (by decide) (by decide) (by decide)
  exact ⟨h.1, h2.1 0 (by decide), h2.2 20 (by decide)⟩

/-! ## Claim C10: `RegionServer._register` cleanup on failure

`_register` runs, inside a `try`: `rackcontrollers.register` (database),
optionally `handle_upgrade` (when a nodegroup uuid is given), then
`initResponder` — which sets `self.ident` and calls `_addConnectionFor`, and
when the peer address is remote also `registerConnection` (database).  The
`except` clause calls `_removeConnectionFor(self.ident, self)` and raises
`CannotRegisterRackController`.  Before `initResponder`, `self.ident` is
still `None`, hence the registry identity type `Option ℕ`. -/

/-- Success or raise of one fallible sub-step of `_register`. -/
inductive RegOutcome
  | ok
  | err
deriving DecidableEq

/-- The outcomes of the fallible sub-steps of one `_register` run:
`rackcontrollers.register` (yielding the rack controller's system id on
success), `rackcontrollers.handle_upgrade`, and
`advertising.registerConnection`. -/
structure RegisterOutcomes where
  dbRegister : Option ℕ
  handleUpgrade : RegOutcome
  registerConnection : RegOutcome
deriving DecidableEq

/-- What `_register` returns to its caller. -/
inductive RegisterResult
  | registered (systemId : ℕ)
  | cannotRegisterRackController
deriving DecidableEq

/-- `RegionServer._register`: the registration sequence with its exception
handler.  `nodegroupUuid` tells whether a nodegroup uuid was supplied
(enabling the `handle_upgrade` step); `hostIsRemote` tells whether the
transport address is a real IPv4/IPv6 address (enabling the database
mirroring step). -/
def registerSeq (st : RegionServiceState (Option ℕ)) (conn : Conn)
    (nodegroupUuid hostIsRemote : Bool) (o : RegisterOutcomes) :
    RegionServiceState (Option ℕ) × RegisterResult :=
  match o.dbRegister with
  | none =>
      ((removeConnectionFor st none conn).1,
        RegisterResult.cannotRegisterRackController)
  | some sysId =>
      if nodegroupUuid = true ∧ o.handleUpgrade = RegOutcome.err then
        ((removeConnectionFor st none conn).1,
          RegisterResult.cannotRegisterRackController)
      else
        let st1 := (addConnectionFor st (some sysId) conn).1
        if hostIsRemote = true ∧ o.registerConnection = RegOutcome.err then
          ((removeConnectionFor st1 (some sysId) conn).1,
            RegisterResult.cannotRegisterRackController)
        else
          (st1, RegisterResult.registered sysId)

/-- C10: if the registration sequence raises after the connection was added
under its identity (here: `registerConnection` fails after
`_addConnectionFor` ran), the connection is removed from the registry and
`CannotRegisterRackController` is returned — no partially-registered
connection remains under any identity. -/
theorem registerSeq_cleanup (st : RegionServiceState (Option ℕ)) (conn : Conn)
    (ngu hir : Bool) (o : RegisterOutcomes) (sysId : ℕ)
    (hdb : o.dbRegister = some sysId)
    (hupg : ngu = true → o.handleUpgrade = RegOutcome.ok)
    (hhir : hir = true) (herr : o.registerConnection = RegOutcome.err)
    (hfresh : ∀ k, conn ∉ connsFor st k) :
    (registerSeq st conn ngu hir o).2 =
        RegisterResult.cannotRegisterRackController
    ∧ ∀ k, conn ∉ connsFor (registerSeq st conn ngu hir o).1 k := by
  have hnot : ¬(ngu = true ∧ o.handleUpgrade = RegOutcome.err) := by
    rintro ⟨h1, h2⟩
    rw [hupg h1] at h2
    exact RegOutcome.noConfusion h2
  have hres : registerSeq st conn ngu hir o =
      ((removeConnectionFor ((addConnectionFor st (some sysId) conn).1)
          (some sysId) conn).1,
        RegisterResult.cannotRegisterRackController) := by
    simp only [registerSeq, hdb]
    rw [if_neg hnot, if_pos ⟨hhir, herr⟩]
  rw [hres]
  refine ⟨rfl, fun k => ?_⟩
  rw [connsFor_removeConnectionFor]
  by_cases hk : k = some sysId
  · rw [if_pos hk]
    exact not_mem_setDiscard _ _
  · rw [if_neg hk, connsFor_addConnectionFor, if_neg hk]
    exact hfresh k

/-- Empty registry for the C10 witness. -/
def cTenSt : RegionServiceState (Option ℕ) := ⟨[], []⟩

/-- Outcomes where the database registration succeeds (system id 3),
`handle_upgrade` succeeds, and the connection-mirroring write fails. -/
def cTenOutcomes : RegisterOutcomes := ⟨some 3, RegOutcome.ok, RegOutcome.err⟩

/-- C10 witness: on an empty registry, with the mirroring step failing after
the connection was added, `_register` returns
`CannotRegisterRackController` and connection 9 is not left registered under
identity 3. -/
theorem registerSeq_cleanup_witness :
    (registerSeq cTenSt 9 true true cTenOutcomes).2 =
        RegisterResult.cannotRegisterRackController
    ∧ 9 ∉ connsFor (registerSeq cTenSt 9 true true cTenOutcomes).1 (some 3) := by
  have h := registerSeq_cleanup cTenSt 9 true true cTenOutcomes 3 rfl
    (fun _ => rfl) rfl rfl (fun k => by simp [connsFor, lookupD])
  exact ⟨h.1, h.2 (some 3)⟩

/-! ## Claim C5: waiter lifecycle

Waiters are deferreds created by `_getConnectionFor` (registered under one
identity) or `_getConnectionFromIdentifiers` (registered under every
identity of the request); both wire `d.addBoth(callOut, ...discard..., d)`,
so whichever way the deferred fires — a register's `waiter.callback`, the
`deferWithTimeout` timeout, or external cancellation — the discard runs when
and only when the deferred fires, and a Twisted deferred fires at most once.
`WaiterSys` is the waiter-bookkeeping projection of the service state:
`sets i` is `self.waiters[i]`, `regIdents w` the (static) identity set the
waiter was added under, `fired w` whether the deferred has already fired. -/

/-- Waiter bookkeeping state. -/
structure WaiterSys where
  sets : ℕ → Finset ℕ
  regIdents : ℕ → Finset ℕ
  fired : ℕ → Bool

/-- The events that can fire a waiter: a `register` for an identity (whose
`_addConnectionFor` calls back every pending waiter of that identity), the
timeout of `deferWithTimeout`, or an external `cancel`. -/
inductive WaiterEvent
  | register (ident : ℕ)
  | timeout (w : ℕ)
  | cancel (w : ℕ)

/-- Firing one waiter: its `addBoth(callOut, discard, d)` callback removes it
from every identity set it was registered under, and the deferred can never
fire again. -/
def fireWaiter (s : WaiterSys) (w : ℕ) : WaiterSys :=
  { sets := fun i => if i ∈ s.regIdents w then (s.sets i).erase w else s.sets i,
    regIdents := s.regIdents,
    fired := fun x => if x = w then true else s.fired x }

/-- One step of the waiter-bookkeeping system.  A `register ident` fires
every pending waiter in `self.waiters[ident]` (the code iterates over a
copy), each removing itself from all sets it occupies; a timeout or cancel
fires a single deferred, and is a no-op on a deferred that already fired. -/
def wstep (s : WaiterSys) : WaiterEvent → WaiterSys
  | WaiterEvent.register ident =>
      { sets := fun i => (s.sets i).filter
          (fun x => ¬(x ∈ s.sets ident ∧ i ∈ s.regIdents x)),
        regIdents := s.regIdents,
        fired := fun x => s.fired x || decide (x ∈ s.sets ident) }
  | WaiterEvent.timeout w => if s.fired w then s else fireWaiter s w
  | WaiterEvent.cancel w => if s.fired w then s else fireWaiter s w

/-- Run a sequence of events. -/
def runTrace (s : WaiterSys) (es : List WaiterEvent) : WaiterSys :=
  es.foldl wstep s

/-- Number of steps of the trace at which waiter `w` is removed from
identity `i`'s waiter set (present before the step, absent after). -/
def removalCount (s : WaiterSys) (w i : ℕ) : List WaiterEvent → ℕ
  | [] => 0
  | e :: es =>
      (if w ∈ s.sets i ∧ w ∉ (wstep s e).sets i then 1 else 0) +
        removalCount (wstep s e) w i es

/-- Well-formedness of one waiter's bookkeeping: once fired it is in no
waiter set; while pending it is in exactly the sets of the identities it was
registered under. -/
def goodWaiter (s : WaiterSys) (w : ℕ) : Prop :=
  (s.fired w = true → ∀ i, w ∉ s.sets i) ∧
  (s.fired w = false → ∀ i, (w ∈ s.sets i ↔ i ∈ s.regIdents w))

theorem wstep_regIdents (s : WaiterSys) (e : WaiterEvent) :
    (wstep s e).regIdents = s.regIdents := by
  cases e with
  | register ident => rfl
  | timeout w =>
    show (if s.fired w then s else fireWaiter s w).regIdents = _
    split <;> rfl
  | cancel w =>
    show (if s.fired w then s else fireWaiter s w).regIdents = _
    split <;> rfl

theorem wstep_fired_mono (s : WaiterSys) (e : WaiterEvent) (w : ℕ)
    (h : s.fired w = true) : (wstep s e).fired w = true := by
  cases e with
  | register ident => simp [wstep, h]
  | timeout w' =>
    show (if s.fired w' then s else fireWaiter s w').fired w = true
    split
    · exact h
    · simp only [fireWaiter]
      split <;> simp [h]
  | cancel w' =>
    show (if s.fired w' then s else fireWaiter s w').fired w = true
    split
    · exact h
    · simp only [fireWaiter]
      split <;> simp [h]

theorem runTrace_fired_mono (s : WaiterSys) (es : List WaiterEvent) (w : ℕ)
    (h : s.fired w = true) : (runTrace s es).fired w = true := by
  induction es generalizing s with
  | nil => exact h
  | cons e es ih => exact ih (wstep s e) (wstep_fired_mono s e w h)

theorem goodWaiter_fireStep (s : WaiterSys) (w' w : ℕ) (h : goodWaiter s w) :
    goodWaiter (if s.fired w' then s else fireWaiter s w') w := by
  obtain ⟨hfired, hpending⟩ := h
  unfold goodWaiter
  split
  · exact ⟨hfired, hpending⟩
  · by_cases hw : w = w'
    · subst hw
      refine ⟨fun _ i => ?_, fun hcon => ?_⟩
      · simp only [fireWaiter]
        by_cases hf : s.fired w = true
        · split
          · exact fun hc => hfired hf i (Finset.mem_of_mem_erase hc)
          · exact hfired hf i
        · have hf' : s.fired w = false := by simpa using hf
          split
          · simp
          · next hni => exact fun hc => hni ((hpending hf' i).mp hc)
      · simp [fireWaiter] at hcon
    · refine ⟨fun hf i => ?_, fun hf i => ?_⟩
      · simp only [fireWaiter] at hf
        rw [if_neg hw] at hf
        have := hfired hf i
        simp only [fireWaiter]
        split
        · exact fun hc => this (Finset.mem_of_mem_erase hc)
        · exact this
      · simp only [fireWaiter] at hf
        rw [if_neg hw] at hf
        have := hpending hf i
        simp only [fireWaiter]
        split
        · rw [Finset.mem_erase]
          simp only [ne_eq, hw, not_false_iff, true_and]
          exact this
        · exact this

theorem goodWaiter_register (s : WaiterSys) (ident w : ℕ)
    (h : goodWaiter s w) :
    goodWaiter (wstep s (WaiterEvent.register ident)) w := by
  obtain ⟨hfired, hpending⟩ := h
  unfold goodWaiter
  by_cases hf : s.fired w = true
  · refine ⟨fun _ i => ?_, fun hcon => ?_⟩
    · have := hfired hf i
      simp only [wstep, Finset.mem_filter]
      exact fun hc => this hc.1
    · simp [wstep, hf] at hcon
  · have hf' : s.fired w = false := by simpa using hf
    by_cases hmem : w ∈ s.sets ident
    · -- the register fires this waiter and removes it from all its sets
      refine ⟨fun _ i => ?_, fun hcon => ?_⟩
      · simp only [wstep, Finset.mem_filter, not_and]
        intro hin
        exact fun hni => hni hmem ((hpending hf' i).mp hin)
      · simp [wstep, hf', hmem] at hcon
    · -- this waiter is not registered under `ident`: untouched
      refine ⟨fun hcon _ => ?_, fun _ i => ?_⟩
      · simp [wstep, hf', hmem] at hcon
      · simp only [wstep, Finset.mem_filter]
        constructor
        · rintro ⟨hin, _⟩
          exact (hpending hf' i).mp hin
        · intro hreg
          exact ⟨(hpending hf' i).mpr hreg, by simp [hmem]⟩

theorem goodWaiter_wstep (s : WaiterSys) (e : WaiterEvent) (w : ℕ)
    (h : goodWaiter s w) : goodWaiter (wstep s e) w := by
  cases e with
  | register ident => exact goodWaiter_register s ident w h
  | timeout w' => exact goodWaiter_fireStep s w' w h
  | cancel w' => exact goodWaiter_fireStep s w' w h

theorem goodWaiter_runTrace (w : ℕ) (es : List WaiterEvent) :
    ∀ s : WaiterSys, goodWaiter s w → goodWaiter (runTrace s es) w := by
  induction es with
  | nil => exact fun _ h => h
  | cons e es ih => exact fun s h => ih (wstep s e) (goodWaiter_wstep s e w h)

/-- A step that leaves the waiter unfired leaves its set memberships
untouched. -/
theorem wstep_mem_unchanged (s : WaiterSys) (e : WaiterEvent) (w i : ℕ)
    (h : goodWaiter s w) (hf : (wstep s e).fired w = s.fired w) :
    (w ∈ (wstep s e).sets i ↔ w ∈ s.sets i) := by
  cases e with
  | register ident =>
    by_cases hft : s.fired w = true
    · have hni := h.1 hft i
      simp only [wstep, Finset.mem_filter]
      exact ⟨fun hc => absurd hc.1 hni, fun hc => absurd hc hni⟩
    · have hf0 : s.fired w = false := by simpa using hft
      have hnid : w ∉ s.sets ident := by
        simp only [wstep, hf0, Bool.false_or] at hf
        simpa [hf0] using hf
      simp only [wstep, Finset.mem_filter]
      exact ⟨fun hc => hc.1, fun hc => ⟨hc, fun hcc => hnid hcc.1⟩⟩
  | timeout w' =>
    have hstep : wstep s (WaiterEvent.timeout w') =
        if s.fired w' then s else fireWaiter s w' := rfl
    rw [hstep] at hf ⊢
    split at hf
    · rw [if_pos (by assumption)]
    · rw [if_neg (by assumption)]
      by_cases hw : w = w'
      · subst hw
        simp only [fireWaiter, if_pos rfl] at hf
        have hft : s.fired w = true := hf.symm
        have hni := h.1 hft i
        simp only [fireWaiter]
        split
        · exact ⟨fun hc => absurd (Finset.mem_of_mem_erase hc) hni,
            fun hc => absurd hc hni⟩
        · exact Iff.rfl
      · simp only [fireWaiter]
        split
        · rw [Finset.mem_erase]
          simp [hw]
        · exact Iff.rfl
  | cancel w' =>
    have hstep : wstep s (WaiterEvent.cancel w') =
        if s.fired w' then s else fireWaiter s w' := rfl
    rw [hstep] at hf ⊢
    split at hf
    · rw [if_pos (by assumption)]
    · rw [if_neg (by assumption)]
      by_cases hw : w = w'
      · subst hw
        simp only [fireWaiter, if_pos rfl] at hf
        have hft : s.fired w = true := hf.symm
        have hni := h.1 hft i
        simp only [fireWaiter]
        split
        · exact ⟨fun hc => absurd (Finset.mem_of_mem_erase hc) hni,
            fun hc => absurd hc hni⟩
        · exact Iff.rfl
      · simp only [fireWaiter]
        split
        · rw [Finset.mem_erase]
          simp [hw]
        · exact Iff.rfl

/-- The step that fires a pending waiter removes it from every waiter set it
was registered under. -/
theorem wstep_fire_removes (s : WaiterSys) (e : WaiterEvent) (w i : ℕ)
    (h : goodWaiter s w) (h0 : s.fired w = false)
    (h1 : (wstep s e).fired w = true) (hi : i ∈ s.regIdents w) :
    w ∈ s.sets i ∧ w ∉ (wstep s e).sets i := by
  refine ⟨(h.2 h0 i).mpr hi, ?_⟩
  cases e with
  | register ident =>
    have hmem : w ∈ s.sets ident := by
      simp only [wstep, h0, Bool.false_or] at h1
      simpa using h1
    simp only [wstep, Finset.mem_filter, not_and]
    exact fun _ hni => hni hmem hi
  | timeout w' =>
    have hstep : wstep s (WaiterEvent.timeout w') =
        if s.fired w' then s else fireWaiter s w' := rfl
    rw [hstep] at h1 ⊢
    split at h1
    · rw [h0] at h1
      exact absurd h1 (by simp)
    · rw [if_neg (by assumption)]
      have hw : w = w' := by
        by_cases hww : w = w'
        · exact hww
        · simp only [fireWaiter, if_neg hww] at h1
          rw [h0] at h1
          exact absurd h1 (by simp)
      subst hw
      simp only [fireWaiter, if_pos hi]
      exact Finset.not_mem_erase _ _
  | cancel w' =>
    have hstep : wstep s (WaiterEvent.cancel w') =
        if s.fired w' then s else fireWaiter s w' := rfl
    rw [hstep] at h1 ⊢
    split at h1
    · rw [h0] at h1
      exact absurd h1 (by simp)
    · rw [if_neg (by assumption)]
      have hw : w = w' := by
        by_cases hww : w = w'
        · exact hww
        · simp only [fireWaiter, if_neg hww] at h1
          rw [h0] at h1
          exact absurd h1 (by simp)
      subst hw
      simp only [fireWaiter, if_pos hi]
      exact Finset.not_mem_erase _ _

/-- Along any event trace, a well-formed waiter is removed from an identity
set it was registered under exactly once if the trace fires it, and zero
times while it stays pending. -/
theorem removalCount_spec (w i : ℕ) (es : List WaiterEvent) :
    ∀ s : WaiterSys, goodWaiter s w → i ∈ s.regIdents w →
      removalCount s w i es =
        if (runTrace s es).fired w = true ∧ s.fired w = false then 1 else 0 := by
  induction es with
  | nil =>
    intro s _ _
    simp only [removalCount, runTrace, List.foldl_nil]
    rw [if_neg]
    rintro ⟨h1, h2⟩
    rw [h1] at h2
    exact absurd h2 (by simp)
  | cons e es ih =>
    intro s hgood hi
    have hgood' := goodWaiter_wstep s e w hgood
    have hreg' : i ∈ (wstep s e).regIdents w := by
      rw [wstep_regIdents]
      exact hi
    have hrun : runTrace s (e :: es) = runTrace (wstep s e) es := rfl
    simp only [removalCount, hrun]
    by_cases hf : s.fired w = true
    · have hf1 : (wstep s e).fired w = true := wstep_fired_mono s e w hf
      rw [if_neg (fun hc => hgood.1 hf i hc.1), ih (wstep s e) hgood' hreg',
        if_neg (fun hc => by rw [hf1] at hc; exact absurd hc.2 (by simp)),
        if_neg (fun hc => by rw [hf] at hc; exact absurd hc.2 (by simp))]
    · have hf0 : s.fired w = false := by simpa using hf
      by_cases hf1 : (wstep s e).fired w = true
      · obtain ⟨hin, hout⟩ := wstep_fire_removes s e w i hgood hf0 hf1 hi
        rw [if_pos ⟨hin, hout⟩, ih (wstep s e) hgood' hreg',
          if_neg (fun hc => by rw [hf1] at hc; exact absurd hc.2 (by simp)),
          if_pos ⟨runTrace_fired_mono (wstep s e) es w hf1, hf0⟩]
      · have hf1' : (wstep s e).fired w = s.fired w := by
          rw [hf0]
          simpa using hf1
        rw [if_neg (fun hc => hc.2 ((wstep_mem_unchanged s e w i hgood hf1').mpr hc.1)),
          ih (wstep s e) hgood' hreg', hf1', Nat.zero_add]

/-- C5: every waiter created by `get` or `getAny` is removed from every
identity waiter set it was added to exactly once — whether it is satisfied
by a register, times out, or is cancelled — and once fired it is left in no
waiter set: no leaked waiters and no double removal. -/
theorem waiter_removed_exactly_once (s : WaiterSys) (w : ℕ)
    (es : List WaiterEvent) (hgood : goodWaiter s w) :
    (∀ i, i ∈ s.regIdents w →
      removalCount s w i es =
        if (runTrace s es).fired w = true ∧ s.fired w = false then 1 else 0)
    ∧ ((runTrace s es).fired w = true → ∀ i, w ∉ (runTrace s es).sets i) :=
  ⟨fun i hi => removalCount_spec w i es s hgood hi,
    fun hf => (goodWaiter_runTrace w es s hgood).1 hf⟩

/-- A `getAny`-style waiter 7, pending and registered under identities 0 and
1, with its membership recorded in both waiter sets. -/
def cFiveSys : WaiterSys :=
  { sets := fun i => if i = 0 ∨ i = 1 then {7} else ∅,
    regIdents := fun x => if x = 7 then {0, 1} else ∅,
    fired := fun _ => false }

theorem cFiveSys_good : goodWaiter cFiveSys 7 := by
  constructor
  · intro h
    exact absurd h (by simp [cFiveSys])
  · intro _ i
    by_cases h0 : i = 0
    · subst h0
      simp [cFiveSys]
    · by_cases h1 : i = 1
      · subst h1
        simp [cFiveSys]
      · simp [cFiveSys, h0, h1]

/-- C5 witness: a register for identity 0 fires the pending waiter 7; it is
removed from identity 0's waiter set exactly once, and it is left in
neither waiter set (in particular not in identity 1's). -/
theorem waiter_removed_exactly_once_witness :
    removalCount cFiveSys 7 0 [WaiterEvent.register 0] = 1
    ∧ 7 ∉ (runTrace cFiveSys [WaiterEvent.register 0]).sets 1 := by
  have h := waiter_removed_exactly_once cFiveSys 7 [WaiterEvent.register 0]
    cFiveSys_good
  have hcond : (runTrace cFiveSys [WaiterEvent.register 0]).fired 7 = true ∧
      cFiveSys.fired 7 = false := by
    constructor
    · show (wstep cFiveSys (WaiterEvent.register 0)).fired 7 = true
      simp [wstep, cFiveSys]
    · rfl
  have h1 := h.1 0 (by simp [cFiveSys])
  rw [if_pos hcond] at h1
  exact ⟨h1, h.2 hcond.1 1⟩

/-! ## Advertising: `RegionAdvertising` and `RegionAdvertisingService`

The durable store is modelled by `AdvertDB`: the `RegionController` rows
(their system ids), the `RegionControllerProcess` rows (primary key, owning
region, OS pid, `updated` timestamp as an integer), and the per-region
"regiond" `Service` status rows.  Endpoint rows are not needed by any claim
and are represented only through the `addresses` argument of `update`, which
drives the returned interval. -/

/-- Number of regiond processes that should be running for a regiond
(`NUMBER_OF_REGIOND_PROCESSES` in the source). -/
def NUMBER_OF_REGIOND_PROCESSES : ℕ := 4

/-- Interval for the advertising service when the rpc service has not
started. -/
def INTERVAL_NO_ENDPOINTS : ℕ := 2

/-- Interval for the advertising service when the rpc service has started. -/
def INTERVAL_WITH_ENDPOINTS : ℕ := 60

/-- One `RegionControllerProcess` row. -/
structure ProcessRecord where
  procId : ℕ
  region : ℕ
  pid : ℕ
  updated : ℤ
deriving DecidableEq

/-- `SERVICE_STATUS` values used by the advertising tick. -/
inductive ServiceStatus
  | running
  | degraded
  | dead
deriving DecidableEq

/-- The durable store state relevant to advertising. -/
structure AdvertDB where
  regions : List ℕ
  processes : List ProcessRecord
  services : List (ℕ × ServiceStatus × String)
deriving DecidableEq

/-- A promoted `RegionAdvertising` instance: this process's region
controller system id and `RegionControllerProcess` primary key. -/
structure RegionAdvertising where
  regionId : ℕ
  processId : ℕ
deriving DecidableEq

/-- `RegionAdvertising.getRegionProcess`: fetch this process's
`RegionControllerProcess` by primary key and refresh its `updated`
timestamp; when another process has deleted it, re-create it with the same
primary key under this process's region controller. -/
def getRegionProcess (adv : RegionAdvertising) (ospid : ℕ) (t : ℤ)
    (db : AdvertDB) : AdvertDB :=
  if db.processes.any (fun p => p.procId == adv.processId) then
    { db with processes := (db.processes.map
        (fun p => if p.procId = adv.processId then { p with updated := t }
          else p)) }
  else
    { db with processes :=
        db.processes ++ [⟨adv.processId, adv.regionId, ospid, t⟩] }

/-- Message written by `update` when fewer processes than expected are
running: `"%d %s running but %d were expected."`. -/
def degradedMessage (n : ℕ) : String :=
  toString n ++ " " ++ (if n = 1 then "process" else "processes") ++
    " running but " ++ toString NUMBER_OF_REGIOND_PROCESSES ++
    " were expected."

/-- Modelled from the spec: `Service.objects.mark_dead(region,
dead_region=True)` lives in `maasserver/models/service.py`, outside this
corpus.  Per the spec it marks a region controller with zero live processes
fully down (status dead); its free-text reason is not specified by the
sources here, so it is modelled as an opaque constant. -/
def markDeadReason : String := ""

/-- `Service.objects.update_service_for` / `create_services_for`: write the
status row of a region's "regiond" service (create or overwrite). -/
def setService (rows : List (ℕ × ServiceStatus × String)) (r : ℕ)
    (s : ServiceStatus) (msg : String) : List (ℕ × ServiceStatus × String) :=
  dictSet rows r (s, msg)

/-- Number of `RegionControllerProcess` rows recorded under region `r`. -/
def processCountFor (db : AdvertDB) (r : ℕ) : ℕ :=
  (db.processes.filter (fun p => p.region == r)).length

/-- The final loop of `update`: for every region controller other than this
process's own, if it has no recorded processes, mark it dead
(`Service.objects.mark_dead(other_region, dead_region=True)`). -/
def markDeadRegions (own : ℕ) (procs : List ProcessRecord) (rs : List ℕ)
    (acc : List (ℕ × ServiceStatus × String)) :
    List (ℕ × ServiceStatus × String) :=
  rs.foldl
    (fun acc r =>
      if r ≠ own ∧ (procs.filter (fun p => p.region == r)).length = 0 then
        setService acc r ServiceStatus.dead markDeadReason
      else acc) acc

/-- `RegionAdvertising.update(addresses)`, body (the enclosing transaction's
`RegionController.objects.get(system_id=...)` is handled by `update`):
refresh this process's own record, garbage-collect stale records (older
than 90 seconds) anywhere, garbage-collect same-region siblings whose pid is
not running, choose the next tick interval from the endpoint set, grade this
region's "regiond" service by its recorded process count, and mark other
regions with no recorded processes dead.  Returns the new store state and
the interval. -/
def updateBody (adv : RegionAdvertising) (ospid : ℕ) (pidRunning : ℕ → Bool)
    (t : ℤ) (addresses : List (ℕ × ℕ)) (db : AdvertDB) : AdvertDB × ℕ :=
  let db1 := getRegionProcess adv ospid t db
  let procs2 := db1.processes.filter (fun p => !decide (p.updated ≤ t - 90))
  let procs3 := procs2.filter
      (fun p => !(p.region == adv.regionId && !(p.procId == adv.processId) &&
        !(pidRunning p.pid)))
  let interval :=
    if addresses.length = 0 then INTERVAL_NO_ENDPOINTS
    else INTERVAL_WITH_ENDPOINTS
  let n := (procs3.filter (fun p => p.region == adv.regionId)).length
  let services1 :=
    if (NUMBER_OF_REGIOND_PROCESSES : ℤ) - (n : ℤ) > 0 then
      setService db1.services adv.regionId ServiceStatus.degraded
        (degradedMessage n)
    else
      setService db1.services adv.regionId ServiceStatus.running ""
  let services2 := markDeadRegions adv.regionId procs3 db.regions services1
  (⟨db.regions, procs3, services2⟩, interval)

/-- `RegionAdvertising.update`: `RegionController.objects.get` raises when
this process's region controller row is gone, modelled by `none`. -/
def update (adv : RegionAdvertising) (ospid : ℕ) (pidRunning : ℕ → Bool)
    (t : ℤ) (addresses : List (ℕ × ℕ)) (db : AdvertDB) :
    Option (AdvertDB × ℕ) :=
  if adv.regionId ∈ db.regions then
    some (updateBody adv ospid pidRunning t addresses db)
  else none

/-- Outcome of `RegionAdvertising.demote`.  Django's `.get(...)` raises
`DoesNotExist` on zero matches and `MultipleObjectsReturned` on several. -/
inductive DemoteResult
  | ok (db : AdvertDB)
  | doesNotExist
  | multipleObjectsReturned
deriving DecidableEq

/-- `RegionAdvertising.demote`: for each `Node` row with this process's
region system id (at most one; zero when the region row is gone), fetch THE
`RegionControllerProcess` with `.get(region=region_obj, pid=os.getpid())`
and delete it. -/
def demote (adv : RegionAdvertising) (ospid : ℕ) (db : AdvertDB) :
    DemoteResult :=
  if adv.regionId ∈ db.regions then
    match db.processes.filter
        (fun p => p.region == adv.regionId && p.pid == ospid) with
    | [] => DemoteResult.doesNotExist
    | [_] => DemoteResult.ok { db with processes := (db.processes.filter
        (fun p => !(p.region == adv.regionId && p.pid == ospid))) }
    | _ => DemoteResult.multipleObjectsReturned
  else DemoteResult.ok db

/-! ## Promotion retry loop (`RegionAdvertisingService._tryPromote`) -/

/-- Outcome of one `RegionAdvertising.promote` attempt:
success (yielding the advertising object), `RegionController.DoesNotExist`
(the parent region-controller record is not created yet), or any other
error. -/
inductive AttemptOutcome
  | promoted (adv : ℕ)
  | regionDoesNotExist
  | otherError
deriving DecidableEq

/-- Terminal outcome of `_tryPromote`: either the advertising object, or the
`CancelledError` raised when the service stops before promotion succeeds. -/
inductive PromoteResult
  | ok (adv : ℕ)
  | cancelledError
deriving DecidableEq

/-- One complete run of `_tryPromote`: the pauses taken between attempts and
the terminal outcome. -/
structure PromoteRun where
  pauses : List ℕ
  result : PromoteResult
deriving DecidableEq

/-- `RegionAdvertisingService._tryPromote`: while the service is running,
attempt `promote`; on `RegionController.DoesNotExist` pause 1 second and
retry, on any other error pause 5 seconds and retry, on success return the
advertising object; when `self.running` becomes false, raise
`CancelledError`.  `running i` / `attempt i` give the service state and the
attempt outcome at iteration `i`; `fuel` bounds the unfolding (the source
loop is unbounded). -/
def tryPromote (running : ℕ → Bool) (attempt : ℕ → AttemptOutcome) :
    ℕ → ℕ → Option PromoteRun
  | 0, _ => none
  | fuel + 1, i =>
    if running i then
      match attempt i with
      | AttemptOutcome.promoted adv => some ⟨[], PromoteResult.ok adv⟩
      | AttemptOutcome.regionDoesNotExist =>
          (tryPromote running attempt fuel (i + 1)).map
            (fun r => ⟨1 :: r.pauses, r.result⟩)
      | AttemptOutcome.otherError =>
          (tryPromote running attempt fuel (i + 1)).map
            (fun r => ⟨5 :: r.pauses, r.result⟩)
    else some ⟨[], PromoteResult.cancelledError⟩

/-- What `startService`'s deferred chain delivers: `_promotionOkay` stores
the advertising object on success; a `CancelledError` is swallowed by
`ignoreCancellation`, so stopping before success surfaces no error to
callers — the service is simply never started. -/
def startPromotion (r : PromoteRun) : Option ℕ :=
  match r.result with
  | PromoteResult.ok adv => some adv
  | PromoteResult.cancelledError => none

/-- The pauses `_tryPromote` takes for `k` failed attempts starting at
iteration `start`: 1 second after a `RegionController.DoesNotExist`, 5
seconds after any other error. -/
def backoffs (attempt : ℕ → AttemptOutcome) : ℕ → ℕ → List ℕ
  | _, 0 => []
  | start, k + 1 =>
      (if attempt start = AttemptOutcome.regionDoesNotExist then 1 else 5) ::
        backoffs attempt (start + 1) k

/-! Lemmas about `lookup?` and `markDeadRegions`. -/

theorem lookup?_dictSet_self (d : List (ι × α)) (k : ι) (v : α) :
    lookup? (dictSet d k v) k = some v := by
  induction d with
  | nil => simp [dictSet, lookup?]
  | cons e es ih =>
    by_cases h : e.1 = k
    · simp [dictSet, h, lookup?]
    · simp [dictSet, h, lookup?, ih]

theorem lookup?_dictSet_ne (d : List (ι × α)) {k k' : ι} (v : α)
    (h : k' ≠ k) : lookup? (dictSet d k v) k' = lookup? d k' := by
  induction d with
  | nil => simp [dictSet, lookup?, Ne.symm h]
  | cons e es ih =>
    by_cases he : e.1 = k
    · simp [dictSet, he, lookup?, Ne.symm h]
    · simp only [dictSet, he, if_false, lookup?]
      by_cases he' : e.1 = k'
      · simp [he']
      · simp [he', ih]

theorem markDeadRegions_lookup_own (own : ℕ) (procs : List ProcessRecord)
    (rs : List ℕ) :
    ∀ acc, lookup? (markDeadRegions own procs rs acc) own = lookup? acc own := by
  induction rs with
  | nil => exact fun _ => rfl
  | cons a rs ih =>
    intro acc
    have hstep : markDeadRegions own procs (a :: rs) acc =
        markDeadRegions own procs rs
          (if a ≠ own ∧ (procs.filter (fun p => p.region == a)).length = 0 then
            setService acc a ServiceStatus.dead markDeadReason
          else acc) := rfl
    rw [hstep, ih]
    split
    · next hcond => exact lookup?_dictSet_ne _ _ (Ne.symm hcond.1)
    · rfl

theorem markDeadRegions_lookup_notmem (own : ℕ) (procs : List ProcessRecord)
    (rs : List ℕ) (r : ℕ) (hr : r ∉ rs) :
    ∀ acc, lookup? (markDeadRegions own procs rs acc) r = lookup? acc r := by
  induction rs with
  | nil => exact fun _ => rfl
  | cons a rs ih =>
    intro acc
    have hra : r ≠ a := fun h => hr (h ▸ List.mem_cons_self a rs)
    have hrs : r ∉ rs := fun h => hr (List.mem_cons_of_mem a h)
    have hstep : markDeadRegions own procs (a :: rs) acc =
        markDeadRegions own procs rs
          (if a ≠ own ∧ (procs.filter (fun p => p.region == a)).length = 0 then
            setService acc a ServiceStatus.dead markDeadReason
          else acc) := rfl
    rw [hstep, ih hrs]
    split
    · exact lookup?_dictSet_ne _ _ hra
    · rfl

theorem markDeadRegions_lookup_dead (own : ℕ) (procs : List ProcessRecord)
    (rs : List ℕ) (r : ℕ) (hne : r ≠ own)
    (hzero : (procs.filter (fun p => p.region == r)).length = 0) :
    ∀ acc, r ∈ rs →
      lookup? (markDeadRegions own procs rs acc) r =
        some (ServiceStatus.dead, markDeadReason) := by
  induction rs with
  | nil =>
    intro _ hmem
    exact absurd hmem (List.not_mem_nil r)
  | cons a rs ih =>
    intro acc hmem
    have hstep : markDeadRegions own procs (a :: rs) acc =
        markDeadRegions own procs rs
          (if a ≠ own ∧ (procs.filter (fun p => p.region == a)).length = 0 then
            setService acc a ServiceStatus.dead markDeadReason
          else acc) := rfl
    rw [hstep]
    by_cases hr : r ∈ rs
    · exact ih _ hr
    · have ha : a = r := by
        rcases List.mem_cons.mp hmem with h | h
        · exact h.symm
        · exact absurd h hr
      subst ha
      rw [markDeadRegions_lookup_notmem own procs rs a hr]
      rw [if_pos ⟨hne, hzero⟩]
      exact lookup?_dictSet_self _ _ _

/-! ## Claim C6: stale-process garbage collection in `update` -/

/-- C6: every advertising tick's `update` deletes every
`RegionControllerProcess` row whose last-refresh timestamp is at least 90
seconds old, regardless of which region controller or process owns it: no
such row survives in the resulting store, and every surviving row is
younger than the time-to-live.  (The tick first refreshes this process's
own row, so the own row survives with timestamp `t`.) -/
theorem update_deletes_stale_processes (adv : RegionAdvertising) (ospid : ℕ)
    (pidRunning : ℕ → Bool) (t : ℤ) (addresses : List (ℕ × ℕ))
    (db : AdvertDB) (hreg : adv.regionId ∈ db.regions) :
    update adv ospid pidRunning t addresses db =
        some (updateBody adv ospid pidRunning t addresses db)
    ∧ (∀ p ∈ (updateBody adv ospid pidRunning t addresses db).1.processes,
        t - 90 < p.updated)
    ∧ (∀ p ∈ db.processes, p.updated ≤ t - 90 →
        p ∉ (updateBody adv ospid pidRunning t addresses db).1.processes) := by
  have hfresh : ∀ p ∈ (updateBody adv ospid pidRunning t addresses db).1.processes,
      t - 90 < p.updated := by
    intro p hp
    have hp3 : p ∈ ((getRegionProcess adv ospid t db).processes.filter
        (fun p => !decide (p.updated ≤ t - 90))).filter
        (fun p => !(p.region == adv.regionId && !(p.procId == adv.processId) &&
          !(pidRunning p.pid))) := hp
    obtain ⟨hp2, _⟩ := List.mem_filter.mp hp3
    obtain ⟨_, hcond⟩ := List.mem_filter.mp hp2
    simp only [Bool.not_eq_eq_eq_not, Bool.not_true, decide_eq_false_iff_not,
      not_le] at hcond
    exact hcond
  exact ⟨by simp [update, hreg], hfresh,
    fun p _ hstale hmem => absurd hstale (not_le.mpr (hfresh p hmem))⟩

/-- The advertising identity used in the C6 witness: region 1, process
record primary key 1. -/
def cSixAdv : RegionAdvertising := ⟨1, 1⟩

/-- Store with this process's own (stale) record, a stale sibling record
under region 1, and a fresh record under region 2. -/
def cSixDb : AdvertDB :=
  { regions := [1, 2],
    processes := [⟨1, 1, 10, -100⟩, ⟨2, 1, 11, -100⟩, ⟨3, 2, 12, 50⟩],
    services := [] }

/-- C6 witness: at tick time 0 the sibling record last refreshed at -100
(age 100 > 90) is deleted by `update`. -/
theorem update_deletes_stale_processes_witness :
    update cSixAdv 10 (fun _ => true) 0 [(5, 5250)] cSixDb =
        some (updateBody cSixAdv 10 (fun _ => true) 0 [(5, 5250)] cSixDb)
    ∧ (⟨2, 1, 11, -100⟩ : ProcessRecord) ∉
        (updateBody cSixAdv 10 (fun _ => true) 0 [(5, 5250)] cSixDb).1.processes := by
  have h := update_deletes_stale_processes cSixAdv 10 (fun _ => true) 0
    [(5, 5250)] cSixDb (by decide)
  exact ⟨h.1, h.2.2 ⟨2, 1, 11, -100⟩ (by decide) (by decide)⟩

/-! ## Claim C7: health grading in `update` -/

/-- C7: with the expected replica count `NUMBER_OF_REGIOND_PROCESSES = 4`,
the tick's grading marks this region's "regiond" service `running` (empty
message) when 4 processes are recorded, `degraded` with the message naming
the recorded count and 4 when fewer are recorded, and marks every region
controller that has 0 recorded processes — necessarily one this process does
not own, since its own region always retains its own refreshed record —
fully down (dead). -/
theorem update_health_grading (adv : RegionAdvertising) (ospid : ℕ)
    (pidRunning : ℕ → Bool) (t : ℤ) (addresses : List (ℕ × ℕ))
    (db : AdvertDB) (hreg : adv.regionId ∈ db.regions)
    (hOwn : ∀ p ∈ db.processes,
      p.procId = adv.processId → p.region = adv.regionId) :
    update adv ospid pidRunning t addresses db =
        some (updateBody adv ospid pidRunning t addresses db)
    ∧ (processCountFor (updateBody adv ospid pidRunning t addresses db).1
        adv.regionId = NUMBER_OF_REGIOND_PROCESSES →
      lookup? (updateBody adv ospid pidRunning t addresses db).1.services
          adv.regionId = some (ServiceStatus.running, ""))
    ∧ (processCountFor (updateBody adv ospid pidRunning t addresses db).1
        adv.regionId < NUMBER_OF_REGIOND_PROCESSES →
      lookup? (updateBody adv ospid pidRunning t addresses db).1.services
          adv.regionId =
        some (ServiceStatus.degraded,
          degradedMessage (processCountFor
            (updateBody adv ospid pidRunning t addresses db).1 adv.regionId)))
    ∧ (∀ r ∈ db.regions, r ≠ adv.regionId →
        processCountFor (updateBody adv ospid pidRunning t addresses db).1 r = 0 →
        lookup? (updateBody adv ospid pidRunning t addresses db).1.services r =
          some (ServiceStatus.dead, markDeadReason))
    ∧ 1 ≤ processCountFor (updateBody adv ospid pidRunning t addresses db).1
        adv.regionId := by
  have hserv : (updateBody adv ospid pidRunning t addresses db).1.services =
      markDeadRegions adv.regionId
        (updateBody adv ospid pidRunning t addresses db).1.processes db.regions
        (if (NUMBER_OF_REGIOND_PROCESSES : ℤ) -
            (processCountFor (updateBody adv ospid pidRunning t addresses db).1
              adv.regionId : ℤ) > 0 then
          setService (getRegionProcess adv ospid t db).services adv.regionId
            ServiceStatus.degraded
            (degradedMessage (processCountFor
              (updateBody adv ospid pidRunning t addresses db).1 adv.regionId))
        else
          setService (getRegionProcess adv ospid t db).services adv.regionId
            ServiceStatus.running "") := rfl
  have h4 : NUMBER_OF_REGIOND_PROCESSES = 4 := rfl
  refine ⟨by simp [update, hreg], ?_, ?_, ?_, ?_⟩
  · intro hc
    rw [hserv, markDeadRegions_lookup_own, if_neg (by rw [hc, h4]; omega)]
    exact lookup?_dictSet_self _ _ _
  · intro hb
    rw [hserv, markDeadRegions_lookup_own, if_pos (by omega)]
    exact lookup?_dictSet_self _ _ _
  · intro r hr hrne hzero
    rw [hserv]
    exact markDeadRegions_lookup_dead adv.regionId _ db.regions r hrne hzero _ hr
  · have hq : ∃ q ∈ (getRegionProcess adv ospid t db).processes,
        q.procId = adv.processId ∧ q.region = adv.regionId ∧ q.updated = t := by
      unfold getRegionProcess
      by_cases hany : db.processes.any (fun p => p.procId == adv.processId)
      · rw [if_pos hany]
        obtain ⟨p, hp, hpid⟩ := List.any_eq_true.mp hany
        have hpid' : p.procId = adv.processId := by simpa using hpid
        exact ⟨{ p with updated := t },
          List.mem_map.mpr ⟨p, hp, by rw [if_pos hpid']⟩,
          hpid', hOwn p hp hpid', rfl⟩
      · rw [if_neg hany]
        exact ⟨⟨adv.processId, adv.regionId, ospid, t⟩, by simp, rfl, rfl, rfl⟩
    obtain ⟨q, hq1, hqid, hqreg, hqupd⟩ := hq
    have hq2 : q ∈ (getRegionProcess adv ospid t db).processes.filter
        (fun p => !decide (p.updated ≤ t - 90)) := by
      refine List.mem_filter.mpr ⟨hq1, ?_⟩
      simp only [hqupd, Bool.not_eq_eq_eq_not, Bool.not_true,
        decide_eq_false_iff_not, not_le]
      omega
    have hq3 : q ∈ (updateBody adv ospid pidRunning t addresses db).1.processes := by
      refine List.mem_filter.mpr ⟨hq2, ?_⟩
      simp [hqid]
    have hq4 : q ∈ ((updateBody adv ospid pidRunning t addresses db).1.processes.filter
        (fun p => p.region == adv.regionId)) :=
      List.mem_filter.mpr ⟨hq3, by simp [hqreg]⟩
    exact List.length_pos.mpr (List.ne_nil_of_mem hq4)

/-- Store for the C7 witness: two processes recorded under region 1 (the
advertising process's own region), none under region 2. -/
def cSevenDb : AdvertDB :=
  { regions := [1, 2],
    processes := [⟨1, 1, 10, 0⟩, ⟨2, 1, 11, 0⟩],
    services := [] }

/-- C7 witness: with 2 of the expected 4 processes recorded, region 1's
regiond service is graded degraded with the message naming 2 and 4; region
2, with 0 recorded processes and not owned by this process, is marked dead;
and the own region retains at least one record. -/
theorem update_health_grading_witness :
    lookup? (updateBody cSixAdv 10 (fun _ => true) 0 [(5, 5250)]
        cSevenDb).1.services 1 =
      some (ServiceStatus.degraded, degradedMessage 2)
    ∧ lookup? (updateBody cSixAdv 10 (fun _ => true) 0 [(5, 5250)]
        cSevenDb).1.services 2 = some (ServiceStatus.dead, markDeadReason)
    ∧ 1 ≤ processCountFor (updateBody cSixAdv 10 (fun _ => true) 0 [(5, 5250)]
        cSevenDb).1 1 := by
  have h := update_health_grading cSixAdv 10 (fun _ => true) 0 [(5, 5250)]
    cSevenDb (by decide) (by decide)
  exact ⟨h.2.2.1 (by decide), h.2.2.2.1 2 (by decide) (by decide) (by decide),
    h.2.2.2.2⟩

/-! ## Claim C8: `_tryPromote` retry, backoff and cancellation -/

theorem tryPromote_step_ok (running : ℕ → Bool) (attempt : ℕ → AttemptOutcome)
    (fuel i : ℕ) (adv : ℕ) (hr : running i = true)
    (ha : attempt i = AttemptOutcome.promoted adv) :
    tryPromote running attempt (fuel + 1) i = some ⟨[], PromoteResult.ok adv⟩ := by
  simp [tryPromote, hr, ha]

theorem tryPromote_step_dne (running : ℕ → Bool) (attempt : ℕ → AttemptOutcome)
    (fuel i : ℕ) (hr : running i = true)
    (ha : attempt i = AttemptOutcome.regionDoesNotExist) :
    tryPromote running attempt (fuel + 1) i =
      (tryPromote running attempt fuel (i + 1)).map
        (fun r => ⟨1 :: r.pauses, r.result⟩) := by
  simp [tryPromote, hr, ha]

theorem tryPromote_step_err (running : ℕ → Bool) (attempt : ℕ → AttemptOutcome)
    (fuel i : ℕ) (hr : running i = true)
    (ha : attempt i = AttemptOutcome.otherError) :
    tryPromote running attempt (fuel + 1) i =
      (tryPromote running attempt fuel (i + 1)).map
        (fun r => ⟨5 :: r.pauses, r.result⟩) := by
  simp [tryPromote, hr, ha]

theorem tryPromote_step_stop (running : ℕ → Bool) (attempt : ℕ → AttemptOutcome)
    (fuel i : ℕ) (hr : running i = false) :
    tryPromote running attempt (fuel + 1) i =
      some ⟨[], PromoteResult.cancelledError⟩ := by
  simp [tryPromote, hr]

/-- C8: while the service is running, `_tryPromote` retries promotion
indefinitely with a fixed backoff — pausing 1 second after a
`RegionController.DoesNotExist` and 5 seconds after any other error — and
returns the advertising object at the first successful attempt; if the
service stops before promotion succeeds, the run terminates with
`CancelledError`, which `startService`'s `ignoreCancellation` turns into
"never started" (`none`) rather than an error surfaced to callers. -/
theorem tryPromote_spec (running : ℕ → Bool) (attempt : ℕ → AttemptOutcome)
    (k : ℕ) :
    ∀ start fuel : ℕ,
    ((∀ i, i ≤ k → running (start + i) = true) →
      (∀ i, i < k → ∀ a, attempt (start + i) ≠ AttemptOutcome.promoted a) →
      ∀ adv, attempt (start + k) = AttemptOutcome.promoted adv → k < fuel →
        tryPromote running attempt fuel start =
            some ⟨backoffs attempt start k, PromoteResult.ok adv⟩
        ∧ startPromotion ⟨backoffs attempt start k, PromoteResult.ok adv⟩ =
            some adv)
    ∧ ((∀ i, i < k → running (start + i) = true) →
      running (start + k) = false →
      (∀ i, i < k → ∀ a, attempt (start + i) ≠ AttemptOutcome.promoted a) →
      k < fuel →
        tryPromote running attempt fuel start =
            some ⟨backoffs attempt start k, PromoteResult.cancelledError⟩
        ∧ startPromotion ⟨backoffs attempt start k,
            PromoteResult.cancelledError⟩ = none) := by
  induction k with
  | zero =>
    intro start fuel
    constructor
    · intro hrun _ adv hatt hfuel
      obtain ⟨f, rfl⟩ : ∃ f, fuel = f + 1 := ⟨fuel - 1, by omega⟩
      refine ⟨?_, rfl⟩
      rw [tryPromote_step_ok running attempt f start adv
        (by simpa using hrun 0 (Nat.le_refl 0)) (by simpa using hatt)]
      rfl
    · intro _ hstop _ hfuel
      obtain ⟨f, rfl⟩ : ∃ f, fuel = f + 1 := ⟨fuel - 1, by omega⟩
      refine ⟨?_, rfl⟩
      rw [tryPromote_step_stop running attempt f start (by simpa using hstop)]
      rfl
  | succ k ih =>
    intro start fuel
    constructor
    · intro hrun hfail adv hatt hfuel
      obtain ⟨f, rfl⟩ : ∃ f, fuel = f + 1 := ⟨fuel - 1, by omega⟩
      have hruns : running start = true := by simpa using hrun 0 (Nat.zero_le _)
      have hih := (ih (start + 1) f).1
        (fun i hi => by
          rw [Nat.add_assoc, Nat.add_comm 1 i]
          exact hrun (i + 1) (by omega))
        (fun i hi a => by
          rw [Nat.add_assoc, Nat.add_comm 1 i]
          exact hfail (i + 1) (by omega) a)
        adv (by rw [Nat.add_assoc, Nat.add_comm 1 k]; exact hatt) (by omega)
      refine ⟨?_, rfl⟩
      cases hcase : attempt start with
      | promoted a => exact absurd hcase (hfail 0 (Nat.succ_pos k) a)
      | regionDoesNotExist =>
        rw [tryPromote_step_dne running attempt f start hruns hcase, hih.1]
        simp [backoffs, hcase]
      | otherError =>
        rw [tryPromote_step_err running attempt f start hruns hcase, hih.1]
        simp [backoffs, hcase]
    · intro hrun hstop hfail hfuel
      obtain ⟨f, rfl⟩ : ∃ f, fuel = f + 1 := ⟨fuel - 1, by omega⟩
      have hruns : running start = true := by simpa using hrun 0 (Nat.succ_pos k)
      have hih := (ih (start + 1) f).2
        (fun i hi => by
          rw [Nat.add_assoc, Nat.add_comm 1 i]
          exact hrun (i + 1) (by omega))
        (by rw [Nat.add_assoc, Nat.add_comm 1 k]; exact hstop)
        (fun i hi a => by
          rw [Nat.add_assoc, Nat.add_comm 1 i]
          exact hfail (i + 1) (by omega) a)
        (by omega)
      refine ⟨?_, rfl⟩
      cases hcase : attempt start with
      | promoted a => exact absurd hcase (hfail 0 (Nat.succ_pos k) a)
      | regionDoesNotExist =>
        rw [tryPromote_step_dne running attempt f start hruns hcase, hih.1]
        simp [backoffs, hcase]
      | otherError =>
        rw [tryPromote_step_err running attempt f start hruns hcase, hih.1]
        simp [backoffs, hcase]

/-- Service that never stops, for the C8 witness. -/
def cEightRun : ℕ → Bool := fun _ => true

/-- Service stopped from iteration 2 onwards, for the C8 witness. -/
def cEightStop : ℕ → Bool := fun i => decide (i < 2)

/-- Promotion attempts: `RegionController.DoesNotExist` first, another error
second, success (advertising object 7) third. -/
def cEightAttempt : ℕ → AttemptOutcome := fun i =>
  if i = 0 then AttemptOutcome.regionDoesNotExist
  else if i = 1 then AttemptOutcome.otherError
  else AttemptOutcome.promoted 7

/-- C8 witness: with the first attempt hitting DoesNotExist and the second
another error, the run pauses 1 then 5 seconds and succeeds at the third
attempt; if instead the service stops after two failed attempts, the run
ends in `CancelledError` and `startPromotion` surfaces no error. -/
theorem tryPromote_spec_witness :
    tryPromote cEightRun cEightAttempt 5 0 =
        some ⟨[1, 5], PromoteResult.ok 7⟩
    ∧ startPromotion ⟨[1, 5], PromoteResult.ok 7⟩ = some 7
    ∧ tryPromote cEightStop cEightAttempt 5 0 =
        some ⟨[1, 5], PromoteResult.cancelledError⟩
    ∧ startPromotion ⟨[1, 5], PromoteResult.cancelledError⟩ = none := by
  have h1 := (tryPromote_spec cEightRun cEightAttempt 2 0 5).1
    (fun i _ => rfl)
    (fun i hi a => by
      interval_cases i
      · simp [cEightAttempt]
      · simp [cEightAttempt])
    7 rfl (by decide)
  have h2 := (tryPromote_spec cEightStop cEightAttempt 2 0 5).2
    (fun i hi => by
      interval_cases i
      · rfl
      · rfl)
    rfl
    (fun i hi a => by
      interval_cases i
      · simp [cEightAttempt]
      · simp [cEightAttempt])
    (by decide)
  exact ⟨h1.1, h1.2, h2.1, h2.2⟩

/-! ## Claim C9: `demote` -/

/-- Store with region controller 1 and no process records. -/
def cNineDb : AdvertDB := { regions := [1], processes := [], services := [] }

/-- Store with region controller 1 and this process's own record. -/
def cNineDb2 : AdvertDB :=
  { regions := [1], processes := [⟨1, 1, 10, 0⟩], services := [] }

/-- Store with this process's record plus a sibling with another pid. -/
def cNineDb3 : AdvertDB :=
  { regions := [1], processes := [⟨1, 1, 10, 0⟩, ⟨2, 1, 99, 0⟩],
    services := [] }

/-- `cNineDb3` after demotion: only the sibling record remains. -/
def cNineDb3After : AdvertDB :=
  { regions := [1], processes := [⟨2, 1, 99, 0⟩], services := [] }

/-- C9 counterexample: `demote` is not idempotent — a first call (region row
present, own record present) deletes the record, but a second call, with
zero matching records remaining while the region row still exists, raises
`RegionControllerProcess.DoesNotExist` (Django `.get` with no match) instead
of being a no-op. -/
theorem demote_not_idempotent_cex :
    demote ⟨1, 1⟩ 10 cNineDb2 = DemoteResult.ok cNineDb
    ∧ demote ⟨1, 1⟩ 10 cNineDb = DemoteResult.doesNotExist := by decide

/-- C9 amended: `demote` deletes this process's own record (matched by
region and OS pid), and is a no-op without error when the region controller
row itself is absent; but when the region row exists and zero matching
process records remain, it raises `DoesNotExist` (the failure is logged and
swallowed by the service-level `_tryDemote`, not by `demote` itself). -/
theorem demote_amended (adv : RegionAdvertising) (ospid : ℕ) (db : AdvertDB) :
    (adv.regionId ∉ db.regions → demote adv ospid db = DemoteResult.ok db)
    ∧ (∀ db', adv.regionId ∈ db.regions →
        demote adv ospid db = DemoteResult.ok db' →
        ∀ p ∈ db'.processes, ¬(p.region = adv.regionId ∧ p.pid = ospid))
    ∧ (adv.regionId ∈ db.regions →
        db.processes.filter
          (fun p => p.region == adv.regionId && p.pid == ospid) = [] →
        demote adv ospid db = DemoteResult.doesNotExist) := by
  refine ⟨fun h => by simp [demote, h], ?_,
    fun h hfil => by simp [demote, h, hfil]⟩
  intro db' hreg hok p hp
  unfold demote at hok
  rw [if_pos hreg] at hok
  rcases hfil : db.processes.filter
      (fun p => p.region == adv.regionId && p.pid == ospid) with _ | ⟨x, xs⟩
  · rw [hfil] at hok
    exact absurd hok (by simp)
  · cases xs with
    | nil =>
      rw [hfil] at hok
      have hdb' : ({ db with processes := (db.processes.filter
          (fun p => !(p.region == adv.regionId && p.pid == ospid))) }
            : AdvertDB) = db' := by
        have h' : DemoteResult.ok ({ db with processes := (db.processes.filter
            (fun p => !(p.region == adv.regionId && p.pid == ospid))) }
              : AdvertDB) = DemoteResult.ok db' := hok
        injection h'
      rw [← hdb'] at hp
      have hpf := (List.mem_filter.mp hp).2
      simp only [Bool.not_eq_eq_eq_not, Bool.not_true, Bool.and_eq_false_iff,
        beq_eq_false_iff_ne, ne_eq] at hpf
      rintro ⟨hpr, hpp⟩
      rcases hpf with h1 | h2
      · exact h1 hpr
      · exact h2 hpp
    | cons y ys =>
      rw [hfil] at hok
      exact absurd hok (by simp)

/-- C9 witness: demotion with the region row absent is a no-op without
error; demotion on a store with a sibling record removes only the matching
own record (the surviving sibling does not match region 1 / pid 10); and
demotion with the region row present but no matching record raises
`DoesNotExist`. -/
theorem demote_amended_witness :
    demote ⟨3, 1⟩ 10 cNineDb = DemoteResult.ok cNineDb
    ∧ ¬((⟨2, 1, 99, 0⟩ : ProcessRecord).region = 1 ∧
        (⟨2, 1, 99, 0⟩ : ProcessRecord).pid = 10)
    ∧ demote ⟨1, 1⟩ 10 cNineDb = DemoteResult.doesNotExist := by
  have h1 := (demote_amended ⟨3, 1⟩ 10 cNineDb).1 (by decide)
  have h2 := (demote_amended ⟨1, 1⟩ 10 cNineDb3).2.1 cNineDb3After
    (by decide) (by decide) ⟨2, 1, 99, 0⟩ (by decide)
  have h3 := (demote_amended ⟨1, 1⟩ 10 cNineDb).2.2 (by decide) (by decide)
  exact ⟨h1, h2, h3⟩

end Maas
